import Mathlib

/-!
Verification of the `aws-dynamo-adapter` repository's core logic against its
natural-language specification.

The embedding models JavaScript objects as association lists of field/value
pairs (`DBRecord`), JavaScript runtime values as the inductive `DBValue`, and
the zod-based validators, timestamp utilities, chunked batch drivers and the
patch update-expression builder as Lean functions translated from the source
files `dynamodb.validation.ts`, `dynamodb.utils.ts` and the operation files
under `operations/`.  Nondeterministic wall-clock time (`new Date()
.toISOString()`) is passed in explicitly as a `now : String` argument, and the
DynamoDB backend is passed in as an explicit lookup function / table state.
-/

namespace DynamoAdapter

/-- A JavaScript runtime value as it can occur in a record handled by the
adapter: strings, numbers, booleans, `null`, `undefined`, arrays and nested
objects.  Numbers are modelled as integers; none of the verified code paths
inspect fractional parts. -/
inductive DBValue where
  | str (s : String)
  | num (n : Int)
  | bool (b : Bool)
  | null
  | undef
  | arr (elems : List DBValue)
  | obj (fields : List (String × DBValue))
deriving Repr, BEq

/-- A JavaScript object: an insertion-ordered association list with (as in any
JS object) at most one entry per field name.  Reading a missing field yields
`undefined`, as in JavaScript. -/
abbrev DBRecord := List (String × DBValue)

/-- JS property read `r[f]`: first entry wins, missing fields read as
`undefined`. -/
def getD : DBRecord → String → DBValue
  | [], _ => .undef
  | (g, w) :: r, f => if g = f then w else getD r f

/-- JS property write `{...r, f: v}` / `r[f] = v`: overwrite in place when the
field exists (keeping its position), append otherwise. -/
def setField : DBRecord → String → DBValue → DBRecord
  | [], f, v => [(f, v)]
  | (g, w) :: r, f, v => if g = f then (f, v) :: r else (g, w) :: setField r f v

/-- JS `delete r[f]`: remove the entry for the field (JS objects hold at most
one entry per field; removing every match is equivalent on well-formed
objects). -/
def deleteField : DBRecord → String → DBRecord
  | [], _ => []
  | (g, w) :: r, f => if g = f then deleteField r f else (g, w) :: deleteField r f

/-- JS `Object.keys(r).includes(f)`. -/
def hasField : DBRecord → String → Bool
  | [], _ => false
  | (g, _) :: r, f => g = f || hasField r f

/-- JS truthiness of a value (`Boolean(v)`): empty strings, zero, `false`,
`null` and `undefined` are falsy, everything else truthy. -/
def truthy : DBValue → Bool
  | .str s => s ≠ ""
  | .num n => n ≠ 0
  | .bool b => b
  | .null => false
  | .undef => false
  | .arr _ => true
  | .obj _ => true

/-- JS short-circuit `a || b`. -/
def jsOr (a b : DBValue) : DBValue :=
  if truthy a then a else b

@[simp] theorem getD_nil (f : String) : getD [] f = .undef := rfl

theorem getD_setField_self (r : DBRecord) (f : String) (v : DBValue) :
    getD (setField r f v) f = v := by
  induction r with
  | nil => simp [setField, getD]
  | cons p r ih =>
    obtain ⟨g, w⟩ := p
    by_cases h : g = f <;> simp [setField, getD, h, ih]

theorem getD_setField_ne (r : DBRecord) (f g : String) (v : DBValue)
    (h : g ≠ f) : getD (setField r f v) g = getD r g := by
  induction r with
  | nil => simp [setField, getD, Ne.symm h]
  | cons p r ih =>
    obtain ⟨k, w⟩ := p
    by_cases hk : k = f
    · subst hk
      simp [setField, getD, Ne.symm h]
    · simp only [setField, if_neg hk, getD]
      by_cases hg : k = g
      · simp [hg]
      · simp [hg, ih]

theorem hasField_of_getD_str (r : DBRecord) (f s : String)
    (h : getD r f = .str s) : hasField r f = true := by
  induction r with
  | nil => simp [getD] at h
  | cons p r ih =>
    obtain ⟨g, w⟩ := p
    by_cases hg : g = f
    · simp [hasField, hg]
    · simp [getD, hg] at h
      simp [hasField, ih h]

theorem hasField_deleteField_self (r : DBRecord) (f : String) :
    hasField (deleteField r f) f = false := by
  induction r with
  | nil => simp [deleteField, hasField]
  | cons p r ih =>
    obtain ⟨g, w⟩ := p
    by_cases hg : g = f
    · simpa [deleteField, hg] using ih
    · simp [deleteField, hg, hasField, ih]

theorem getD_deleteField_ne (r : DBRecord) (f g : String) (h : g ≠ f) :
    getD (deleteField r f) g = getD r g := by
  induction r with
  | nil => simp [deleteField]
  | cons p r ih =>
    obtain ⟨k, w⟩ := p
    by_cases hk : k = f
    · subst hk
      simp [deleteField, getD, Ne.symm h, ih]
    · simp only [deleteField, if_neg hk, getD]
      by_cases hg : k = g
      · simp [hg]
      · simp [hg, ih]

/-! ## Validator (`dynamodb.validation.ts`) -/

/-- Check used by `createKeySchema` / `createRecordSchema` for the two
configured key fields: `z.string().min(1)` — present, a string, non-empty. -/
def isNonEmptyStr : DBValue → Bool
  | .str s => s ≠ ""
  | _ => false

/-- Check used by the key schema's `.catchall(z.union([z.string(),
z.number()]))` on every non-key field. -/
def isStrOrNum : DBValue → Bool
  | .str _ => true
  | .num _ => true
  | _ => false

/-- The zod issue paths produced by parsing `keys` against
`createKeySchema(partitionKey, sortKey)`: the two shape fields checked with
`z.string().min(1)` first, then the catchall over the remaining fields. -/
def keyIssues (pf sf : String) (ks : DBRecord) : List String :=
  (if isNonEmptyStr (getD ks pf) then [] else [pf]) ++
  (if isNonEmptyStr (getD ks sf) then [] else [sf]) ++
  (ks.filter (fun p => decide (p.1 ≠ pf) && decide (p.1 ≠ sf)
      && !isStrOrNum p.2)).map Prod.fst

/-- The zod issue paths for `createRecordSchema` (`.passthrough()`: only the
two key fields are constrained). -/
def recordIssues (pf sf : String) (r : DBRecord) : List String :=
  (if isNonEmptyStr (getD r pf) then [] else [pf]) ++
  (if isNonEmptyStr (getD r sf) then [] else [sf])

/-- `validateKeys`: parse against the key schema, then restrict the result to
exactly the configured partition and sort fields (lines 64-81 of
`dynamodb.validation.ts`). -/
def validateKeys (pf sf : String) (ks : DBRecord) : Except String DBRecord :=
  let issues := keyIssues pf sf ks
  if issues.isEmpty then
    .ok [(pf, getD ks pf), (sf, getD ks sf)]
  else
    .error ("Validation failed for keys: Missing or invalid fields: " ++
      String.intercalate ", " issues)

/-- `validateCreateRecord`: parse against the passthrough record schema; on
success zod returns the record with all fields (values unchanged), modelled as
the record itself since only field values are consumed downstream. -/
def validateCreateRecord (pf sf : String) (r : DBRecord) :
    Except String DBRecord :=
  let issues := recordIssues pf sf r
  if issues.isEmpty then
    .ok r
  else
    .error ("Validation failed for create record: Missing or invalid fields: "
      ++ String.intercalate ", " issues)

/-- `validateUpdateRecord`: same record schema, different error prefix. -/
def validateUpdateRecord (pf sf : String) (r : DBRecord) :
    Except String DBRecord :=
  let issues := recordIssues pf sf r
  if issues.isEmpty then
    .ok r
  else
    .error ("Validation failed for update record: Missing or invalid fields: "
      ++ String.intercalate ", " issues)

/-- The wrapper message added by `validateBatchKeys` at a failing index. -/
def batchKeysMsg (i : Nat) (msg : String) : String :=
  "Validation failed for keys at index " ++ toString i ++ ": " ++ msg

/-- The wrapper message added by `validateBatchRecords` at a failing index. -/
def batchRecordsMsg (i : Nat) (msg : String) : String :=
  "Validation failed for record at index " ++ toString i ++ ": " ++ msg

/-- `keysList.map((keys, index) => ...)` with the JS `map` aborting on the
first thrown error; `i` is the index of the first element of the remaining
list. -/
def validateBatchKeysFrom (pf sf : String) :
    Nat → List DBRecord → Except String (List DBRecord)
  | _, [] => .ok []
  | i, ks :: rest =>
    match validateKeys pf sf ks with
    | .error msg => .error (batchKeysMsg i msg)
    | .ok vks =>
      match validateBatchKeysFrom pf sf (i + 1) rest with
      | .error e => .error e
      | .ok vrest => .ok (vks :: vrest)

/-- `validateBatchKeys` (lines 110-121 of `dynamodb.validation.ts`). -/
def validateBatchKeys (pf sf : String) (l : List DBRecord) :
    Except String (List DBRecord) :=
  validateBatchKeysFrom pf sf 0 l

/-- `records.map((record, index) => ...)` for `validateBatchRecords`. -/
def validateBatchRecordsFrom (pf sf : String) :
    Nat → List DBRecord → Except String (List DBRecord)
  | _, [] => .ok []
  | i, r :: rest =>
    match validateCreateRecord pf sf r with
    | .error msg => .error (batchRecordsMsg i msg)
    | .ok vr =>
      match validateBatchRecordsFrom pf sf (i + 1) rest with
      | .error e => .error e
      | .ok vrest => .ok (vr :: vrest)

/-- `validateBatchRecords` (lines 97-108 of `dynamodb.validation.ts`). -/
def validateBatchRecords (pf sf : String) (l : List DBRecord) :
    Except String (List DBRecord) :=
  validateBatchRecordsFrom pf sf 0 l

/-- `validatePatchUpdates`: validate the keys, then return the updates with
the partition and sort fields deleted (lines 123-135 of
`dynamodb.validation.ts`). -/
def validatePatchUpdates (pf sf : String) (ks updates : DBRecord) :
    Except String (DBRecord × DBRecord) :=
  match validateKeys pf sf ks with
  | .error e => .error e
  | .ok vks => .ok (vks, deleteField (deleteField updates pf) sf)

/-! ## Timestamp utilities (`dynamodb.utils.ts`)

`getCurrentTimestamp()` reads the wall clock; here the single instant read in
a call is passed in as `now : String`. -/

/-- `addTimestampsIfMissing`: one `getCurrentTimestamp()` call, then
`{...record, createdAt: record.createdAt || timestamp, updatedAt:
record.updatedAt || timestamp}` (lines 17-24 of `dynamodb.utils.ts`). -/
def addTimestampsIfMissing (now : String) (r : DBRecord) : DBRecord :=
  setField (setField r "createdAt" (jsOr (getD r "createdAt") (.str now)))
    "updatedAt" (jsOr (getD r "updatedAt") (.str now))

/-- `updateTimestamp`: `{...record, updatedAt: getCurrentTimestamp()}`
(lines 26-29 of `dynamodb.utils.ts`). -/
def updateTimestamp (now : String) (r : DBRecord) : DBRecord :=
  setField r "updatedAt" (.str now)

/-- `extractKeysFromRecord` (lines 48-62 of `dynamodb.utils.ts`): build the
key object from a record; the sort field is included only when defined. -/
def extractKeysFromRecord (r : DBRecord) (pf sf : String) : DBRecord :=
  match getD r sf with
  | .undef => [(pf, getD r pf)]
  | v => [(pf, getD r pf), (sf, v)]

/-! ## Batch chunking

Every batch driver splits its list with the same loop:
`for (let i = 0; i < list.length; i += LIMIT) batches.push(list.slice(i, i +
LIMIT));`. -/

/-- The chunking loop, fuel-recursive so that it computes: each step slices
off the next `limit` elements.  A positive `limit` consumes at least one
element per step, so `l.length` steps of fuel always suffice.  (With
`limit = 0` the JS loop would not terminate; the adapter only ever uses the
positive limits 25 and 100.) -/
def chunksOfAux (limit : Nat) : Nat → List DBRecord → List (List DBRecord)
  | 0, _ => []
  | _, [] => []
  | fuel + 1, l => l.take limit :: chunksOfAux limit fuel (l.drop limit)

/-- `for (let i = 0; i < l.length; i += limit) batches.push(l.slice(i, i +
limit))`. -/
def chunksOf (limit : Nat) (l : List DBRecord) : List (List DBRecord) :=
  chunksOfAux limit l.length l

theorem chunksOfAux_nil (limit fuel : Nat) : chunksOfAux limit fuel [] = [] := by
  cases fuel <;> rfl

theorem chunksOfAux_congr (limit : Nat) (h0 : limit ≠ 0) :
    ∀ (fuel fuel2 : Nat) (l : List DBRecord),
      l.length ≤ fuel → l.length ≤ fuel2 →
      chunksOfAux limit fuel l = chunksOfAux limit fuel2 l := by
  intro fuel
  induction fuel with
  | zero =>
    intro fuel2 l h1 _
    rw [List.length_eq_zero.mp (Nat.le_zero.mp h1), chunksOfAux_nil,
      chunksOfAux_nil]
  | succ fuel ih =>
    intro fuel2 l h1 h2
    cases l with
    | nil => rw [chunksOfAux_nil, chunksOfAux_nil]
    | cons a t =>
      cases fuel2 with
      | zero => simp at h2
      | succ fuel2 =>
        show _ :: _ = _ :: _
        have hd : ((a :: t).drop limit).length ≤ fuel ∧
            ((a :: t).drop limit).length ≤ fuel2 := by
          simp only [List.length_drop, List.length_cons]
          simp only [List.length_cons] at h1 h2
          have hpos : 0 < limit := Nat.pos_of_ne_zero h0
          constructor <;> omega
        rw [ih fuel2 ((a :: t).drop limit) hd.1 hd.2]

theorem chunksOf_nil (limit : Nat) : chunksOf limit [] = [] := rfl

theorem chunksOf_pos (limit : Nat) (l : List DBRecord) (h0 : limit ≠ 0)
    (hl : l ≠ []) :
    chunksOf limit l = l.take limit :: chunksOf limit (l.drop limit) := by
  obtain ⟨a, t, rfl⟩ := List.exists_cons_of_ne_nil hl
  show chunksOfAux limit ((a :: t).length) (a :: t) = _
  rw [show (a :: t).length = t.length + 1 from rfl]
  show _ :: chunksOfAux limit t.length ((a :: t).drop limit) = _
  rw [chunksOfAux_congr limit h0 t.length ((a :: t).drop limit).length
    ((a :: t).drop limit) (by simp only [List.length_drop, List.length_cons]; omega)
    (Nat.le_refl _)]
  rfl

/-! ## The DynamoDB backend model

The backend is external to the repository; operations receive it as an
explicit collaborator.  For reads it is a partial map from validated key
objects to stored items; for writes, a table state folded through put/delete
steps keyed by `BEq` on key objects. -/

/-- A stored table: association list from key object to item. -/
abbrev DBTable := List (DBRecord × DBRecord)

/-- `PutRequest`/`putItem`: upsert the item under its key (extracted with the
configured key fields, as the backend does). -/
def putItem (pf sf : String) (t : DBTable) (item : DBRecord) : DBTable :=
  let k := extractKeysFromRecord item pf sf
  (k, item) :: t.filter (fun e => !(e.1 == k))

/-- `DeleteRequest`/`deleteItem`: remove any item stored under the key. -/
def delItem (t : DBTable) (k : DBRecord) : DBTable :=
  t.filter (fun e => !(e.1 == k))

/-! ## Single-record operations -/

/-- `createCreateOneRecord` (`create.operation.ts`): validate, add missing
timestamps, put the result and return it. -/
def createOneRecord (pf sf : String) (now : String) (r : DBRecord) :
    Except String DBRecord :=
  match validateCreateRecord pf sf r with
  | .error e => .error e
  | .ok vr => .ok (addTimestampsIfMissing now vr)

/-- `createFetchOneRecord` (`dynamodb.adapter.ts` lines 48-71): validate the
keys, issue `GetCommand`, return `null` (here `none`) when no item comes
back. -/
def fetchOneRecord (pf sf : String) (db : DBRecord → Option DBRecord)
    (ks : DBRecord) : Except String (Option DBRecord) :=
  match validateKeys pf sf ks with
  | .error e => .error e
  | .ok vks => .ok (db vks)

/-- `createReplaceOneRecord` (`replace.operation.ts`): validate, refresh the
update timestamp, put the result and return it. -/
def replaceOneRecord (pf sf : String) (now : String) (r : DBRecord) :
    Except String DBRecord :=
  match validateUpdateRecord pf sf r with
  | .error e => .error e
  | .ok vr => .ok (updateTimestamp now vr)

/-! ## Patch update-expression builder (`patch.operation.ts`)

`Object.entries(updatesWithTimestamp).forEach(([key, value], index) => { if
(!Object.keys(keys).includes(key)) { ... } })` — note the filter consults the
RAW `keys` argument of `patchOneRecord`, not the validated keys and not the
configured key fields.  Each kept entry `(index, key, value)` contributes the
expression part `#attr<index> = :val<index>`, the name mapping
`#attr<index> -> key` and the value mapping `:val<index> -> value`. -/

/-- The kept `(index, field, value)` triples of the `forEach` loop, starting
at entry index `i`. -/
def buildExprParts (rawKeys : DBRecord) : Nat → DBRecord →
    List (Nat × String × DBValue)
  | _, [] => []
  | i, (f, v) :: rest =>
    if hasField rawKeys f then buildExprParts rawKeys (i + 1) rest
    else (i, f, v) :: buildExprParts rawKeys (i + 1) rest

/-- The `ExpressionAttributeNames` map: `#attr<index> -> field`. -/
def exprAttributeNames (parts : List (Nat × String × DBValue)) :
    List (String × String) :=
  parts.map (fun p => ("#attr" ++ toString p.1, p.2.1))

/-- The `ExpressionAttributeValues` map: `:val<index> -> value`. -/
def exprAttributeValues (parts : List (Nat × String × DBValue)) :
    List (String × DBValue) :=
  parts.map (fun p => (":val" ++ toString p.1, p.2.2))

/-- `createPatchOneRecord` up to the backend call: validate keys and strip key
fields from the updates, refresh `updatedAt`, and build the update-expression
parts.  Returns the validated keys and the parts (from which the expression
string, the name map and the value map are read off). -/
def patchOneRecord (pf sf : String) (now : String) (ks updates : DBRecord) :
    Except String (DBRecord × List (Nat × String × DBValue)) :=
  match validatePatchUpdates pf sf ks updates with
  | .error e => .error e
  | .ok (vks, vupd) =>
    let updatesWithTimestamp := updateTimestamp now vupd
    .ok (vks, buildExprParts ks 0 updatesWithTimestamp)

/-- The backend semantics of `UpdateCommand` with expression
`SET #attr<i1> = :val<i1>, ...`: assign each named field its paired value on
the stored item, leaving every other attribute unchanged. -/
def applyPatchParts (item : DBRecord) (parts : List (Nat × String × DBValue)) :
    DBRecord :=
  parts.foldl (fun it p => setField it p.2.1 p.2.2) item

/-! ## Batch operations -/

/-- `createCreateManyRecords` (`create-many.operation.ts`): batch-validate,
add missing timestamps (one clock read per record list, modelled with the
shared `now`), chunk into batches of 25 and issue one `BatchWriteCommand` per
chunk.  Returns the issued chunks (the backend calls, in order) and the
returned record list. -/
def createManyRecords (pf sf : String) (now : String) (records : List DBRecord) :
    Except String (List (List DBRecord) × List DBRecord) :=
  match validateBatchRecords pf sf records with
  | .error e => .error e
  | .ok vrs =>
    let recordsWithTimestamps := vrs.map (addTimestampsIfMissing now)
    .ok (chunksOf 25 recordsWithTimestamps, recordsWithTimestamps)

/-- `createDeleteManyRecords` (`delete-many.operation.ts`): batch-validate,
chunk into batches of 25 and issue one `BatchWriteCommand` of delete requests
per chunk.  Returns the issued chunks. -/
def deleteManyRecords (pf sf : String) (keysList : List DBRecord) :
    Except String (List (List DBRecord)) :=
  match validateBatchKeys pf sf keysList with
  | .error e => .error e
  | .ok vkl => .ok (chunksOf 25 vkl)

/-- `createFetchManyRecords` (`fetch-many.operation.ts`): empty input
short-circuits to `[]` with no validation and no backend call; otherwise
batch-validate, chunk into batches of 100, issue one `BatchGetCommand` per
chunk and concatenate the items each call returns.  `db` is the backend
lookup; a `BatchGetCommand` over a chunk returns the stored items of the keys
that exist. -/
def fetchManyRecords (pf sf : String) (db : DBRecord → Option DBRecord)
    (keysList : List DBRecord) :
    Except String (List (List DBRecord) × List DBRecord) :=
  if keysList.isEmpty then .ok ([], [])
  else
    match validateBatchKeys pf sf keysList with
    | .error e => .error e
    | .ok vkl =>
      let batches := chunksOf 100 vkl
      .ok (batches, (batches.map (fun c => c.filterMap db)).flatten)

/-! ## Support lemmas -/

theorem chunksOf_flatten (limit : Nat) (h0 : limit ≠ 0) (l : List DBRecord) :
    (chunksOf limit l).flatten = l := by
  by_cases hl : l.length = 0
  · rw [List.length_eq_zero.mp hl, chunksOf_nil]
    rfl
  · rw [chunksOf_pos limit l h0 (fun he => hl (by rw [he]; rfl))]
    simp only [List.flatten_cons]
    rw [chunksOf_flatten limit h0 (l.drop limit), List.take_append_drop]
termination_by l.length
decreasing_by
  simp only [List.length_drop]
  exact Nat.sub_lt (Nat.pos_of_ne_zero hl) (Nat.pos_of_ne_zero h0)

theorem chunksOf_length (limit : Nat) (h0 : limit ≠ 0) (l : List DBRecord) :
    (chunksOf limit l).length = (l.length + limit - 1) / limit := by
  by_cases hl : l.length = 0
  · rw [List.length_eq_zero.mp hl, chunksOf_nil]
    have : limit - 1 < limit := Nat.sub_lt (Nat.pos_of_ne_zero h0) Nat.one_pos
    simp [Nat.div_eq_of_lt this]
  · rw [chunksOf_pos limit l h0 (fun he => hl (by rw [he]; rfl))]
    simp only [List.length_cons]
    rw [chunksOf_length limit h0 (l.drop limit)]
    simp only [List.length_drop]
    rcases Nat.lt_or_ge l.length limit with hlt | hge
    · have e1 : l.length - limit = 0 := by omega
      have e2 : (limit - 1) / limit = 0 :=
        Nat.div_eq_of_lt (Nat.sub_lt (Nat.pos_of_ne_zero h0) Nat.one_pos)
      have e3 : (l.length + limit - 1) / limit = 1 := by
        refine Nat.div_eq_of_lt_le (by omega) ?_
        have : (1 + 1) * limit = limit + limit := by ring
        omega
      rw [e1, e3]
      simpa using e2
    · have e1 : l.length - limit + limit - 1 = l.length - 1 := by omega
      have e2 : l.length + limit - 1 = l.length - 1 + limit := by omega
      rw [e1, e2, Nat.add_div_right _ (Nat.pos_of_ne_zero h0)]
termination_by l.length
decreasing_by
  simp only [List.length_drop]
  exact Nat.sub_lt (Nat.pos_of_ne_zero hl) (Nat.pos_of_ne_zero h0)

theorem chunksOf_sizes (limit : Nat) (h0 : limit ≠ 0) (l : List DBRecord) :
    ∀ c ∈ chunksOf limit l, c.length ≤ limit := by
  by_cases hl : l.length = 0
  · rw [List.length_eq_zero.mp hl, chunksOf_nil]
    intro c hc
    simp at hc
  · rw [chunksOf_pos limit l h0 (fun he => hl (by rw [he]; rfl))]
    intro c hc
    rcases List.mem_cons.mp hc with rfl | hc2
    · rw [List.length_take]
      exact Nat.min_le_left _ _
    · exact chunksOf_sizes limit h0 (l.drop limit) c hc2
termination_by l.length
decreasing_by
  simp only [List.length_drop]
  exact Nat.sub_lt (Nat.pos_of_ne_zero hl) (Nat.pos_of_ne_zero h0)

theorem validateBatchKeysFrom_ok_length (pf sf : String) :
    ∀ (l : List DBRecord) (n : Nat) (out : List DBRecord),
      validateBatchKeysFrom pf sf n l = .ok out → out.length = l.length := by
  intro l
  induction l with
  | nil =>
    intro n out h
    simp only [validateBatchKeysFrom] at h
    cases h
    rfl
  | cons a rest ih =>
    intro n out h
    simp only [validateBatchKeysFrom] at h
    split at h
    · cases h
    · split at h
      · cases h
      · rename_i vrest hrest
        cases h
        simp [ih (n + 1) vrest hrest]

theorem validateBatchRecordsFrom_ok_length (pf sf : String) :
    ∀ (l : List DBRecord) (n : Nat) (out : List DBRecord),
      validateBatchRecordsFrom pf sf n l = .ok out → out.length = l.length := by
  intro l
  induction l with
  | nil =>
    intro n out h
    simp only [validateBatchRecordsFrom] at h
    cases h
    rfl
  | cons a rest ih =>
    intro n out h
    simp only [validateBatchRecordsFrom] at h
    split at h
    · cases h
    · split at h
      · cases h
      · rename_i vrest hrest
        cases h
        simp [ih (n + 1) vrest hrest]

theorem validateBatchKeysFrom_error (pf sf : String) :
    ∀ (l : List DBRecord) (n i : Nat) (hi : i < l.length) (m : String),
      (∀ j (hj : j < i), ∃ v, validateKeys pf sf (l.get ⟨j, hj.trans hi⟩) = .ok v) →
      validateKeys pf sf (l.get ⟨i, hi⟩) = .error m →
      validateBatchKeysFrom pf sf n l = .error (batchKeysMsg (n + i) m) := by
  intro l
  induction l with
  | nil =>
    intro n i hi
    simp at hi
  | cons a rest ih =>
    intro n i hi m hfst he
    cases i with
    | zero =>
      simp only [List.get] at he
      simp [validateBatchKeysFrom, he]
    | succ i =>
      obtain ⟨va, hva⟩ := hfst 0 (Nat.succ_pos i)
      simp only [List.get] at hva he
      have hrec := ih (n + 1) i (Nat.lt_of_succ_lt_succ hi) m
        (fun j hj => by simpa [List.get] using hfst (j + 1) (Nat.succ_lt_succ hj))
        he
      have : n + 1 + i = n + (i + 1) := by omega
      simp [validateBatchKeysFrom, hva, hrec, this]

theorem validateBatchRecordsFrom_error (pf sf : String) :
    ∀ (l : List DBRecord) (n i : Nat) (hi : i < l.length) (m : String),
      (∀ j (hj : j < i), ∃ v, validateCreateRecord pf sf (l.get ⟨j, hj.trans hi⟩) = .ok v) →
      validateCreateRecord pf sf (l.get ⟨i, hi⟩) = .error m →
      validateBatchRecordsFrom pf sf n l = .error (batchRecordsMsg (n + i) m) := by
  intro l
  induction l with
  | nil =>
    intro n i hi
    simp at hi
  | cons a rest ih =>
    intro n i hi m hfst he
    cases i with
    | zero =>
      simp only [List.get] at he
      simp [validateBatchRecordsFrom, he]
    | succ i =>
      obtain ⟨va, hva⟩ := hfst 0 (Nat.succ_pos i)
      simp only [List.get] at hva he
      have hrec := ih (n + 1) i (Nat.lt_of_succ_lt_succ hi) m
        (fun j hj => by simpa [List.get] using hfst (j + 1) (Nat.succ_lt_succ hj))
        he
      have : n + 1 + i = n + (i + 1) := by omega
      simp [validateBatchRecordsFrom, hva, hrec, this]

theorem buildExprParts_not_raw (ks : DBRecord) :
    ∀ (u : DBRecord) (i : Nat) (p : Nat × String × DBValue),
      p ∈ buildExprParts ks i u → hasField ks p.2.1 = false := by
  intro u
  induction u with
  | nil =>
    intro i p hp
    simp [buildExprParts] at hp
  | cons a rest ih =>
    intro i p hp
    obtain ⟨f, v⟩ := a
    by_cases hf : hasField ks f = true
    · rw [buildExprParts, if_pos hf] at hp
      exact ih (i + 1) p hp
    · rw [buildExprParts, if_neg hf] at hp
      rcases List.mem_cons.mp hp with rfl | hp2
      · exact Bool.eq_false_iff.mpr hf
      · exact ih (i + 1) p hp2

theorem getD_applyPatchParts (f : String) :
    ∀ (parts : List (Nat × String × DBValue)) (item : DBRecord),
      (∀ p ∈ parts, p.2.1 ≠ f) →
      getD (applyPatchParts item parts) f = getD item f := by
  intro parts
  induction parts with
  | nil =>
    intro item _
    rfl
  | cons p rest ih =>
    intro item hp
    have h1 := ih (setField item p.2.1 p.2.2)
      (fun q hq => hp q (List.mem_cons_of_mem _ hq))
    simp only [applyPatchParts, List.foldl_cons] at h1 ⊢
    rw [h1, getD_setField_ne _ _ _ _ (Ne.symm (hp p (List.mem_cons_self p rest)))]

theorem keyIssues_eq_nil_iff (pf sf : String) (ks : DBRecord) :
    keyIssues pf sf ks = [] ↔
      (isNonEmptyStr (getD ks pf) = true ∧ isNonEmptyStr (getD ks sf) = true ∧
       ∀ p ∈ ks, p.1 ≠ pf → p.1 ≠ sf → isStrOrNum p.2 = true) := by
  unfold keyIssues
  constructor
  · intro h
    rw [List.append_eq_nil, List.append_eq_nil] at h
    obtain ⟨⟨h1, h2⟩, h3⟩ := h
    refine ⟨?_, ?_, ?_⟩
    · by_contra hc
      simp [hc] at h1
    · by_contra hc
      simp [hc] at h2
    · intro p hp hpf hsf
      by_contra hc
      have hmem : p ∈ ks.filter (fun p => decide (p.1 ≠ pf) && decide (p.1 ≠ sf)
          && !isStrOrNum p.2) := by
        rw [List.mem_filter]
        exact ⟨hp, by simp [hpf, hsf, hc]⟩
      rw [List.map_eq_nil_iff] at h3
      rw [h3] at hmem
      simp at hmem
  · intro ⟨h1, h2, h3⟩
    rw [if_pos h1, if_pos h2]
    simp only [List.nil_append, List.map_eq_nil_iff, List.filter_eq_nil_iff]
    intro p hp
    by_cases hpf : p.1 = pf
    · simp [hpf]
    · by_cases hsf : p.1 = sf
      · simp [hsf]
      · simp [hpf, hsf, h3 p hp hpf hsf]

theorem recordIssues_eq_nil_iff (pf sf : String) (r : DBRecord) :
    recordIssues pf sf r = [] ↔
      (isNonEmptyStr (getD r pf) = true ∧ isNonEmptyStr (getD r sf) = true) := by
  unfold recordIssues
  constructor
  · intro h
    rw [List.append_eq_nil] at h
    obtain ⟨h1, h2⟩ := h
    refine ⟨?_, ?_⟩
    · by_contra hc
      simp [hc] at h1
    · by_contra hc
      simp [hc] at h2
  · intro ⟨h1, h2⟩
    rw [if_pos h1, if_pos h2]
    rfl

theorem validateKeys_ok_of_issues (pf sf : String) (ks : DBRecord)
    (h : keyIssues pf sf ks = []) :
    validateKeys pf sf ks = .ok [(pf, getD ks pf), (sf, getD ks sf)] := by
  unfold validateKeys
  simp [h]

theorem validateKeys_error_of_issues (pf sf : String) (ks : DBRecord)
    (h : keyIssues pf sf ks ≠ []) :
    validateKeys pf sf ks =
      .error ("Validation failed for keys: Missing or invalid fields: " ++
        String.intercalate ", " (keyIssues pf sf ks)) := by
  unfold validateKeys
  simp [h]

theorem validateKeys_ok_iff_issues (pf sf : String) (ks : DBRecord) :
    (∃ v, validateKeys pf sf ks = .ok v) ↔ keyIssues pf sf ks = [] := by
  constructor
  · rintro ⟨v, hv⟩
    by_contra h
    rw [validateKeys_error_of_issues pf sf ks h] at hv
    cases hv
  · intro h
    exact ⟨_, validateKeys_ok_of_issues pf sf ks h⟩

theorem validateCreateRecord_ok_eq (pf sf : String) (r vr : DBRecord)
    (h : validateCreateRecord pf sf r = .ok vr) : vr = r := by
  unfold validateCreateRecord at h
  by_cases hc : (recordIssues pf sf r).isEmpty = true
  · simp only [hc, if_true] at h
    cases h
    rfl
  · simp only [hc, if_false] at h
    cases h

theorem validateCreateRecord_ok_iff (pf sf : String) (r : DBRecord) :
    (∃ v, validateCreateRecord pf sf r = .ok v) ↔ recordIssues pf sf r = [] := by
  unfold validateCreateRecord
  by_cases hc : (recordIssues pf sf r).isEmpty = true
  · simp only [hc, if_true]
    exact ⟨fun _ => List.isEmpty_iff.mp hc, fun _ => ⟨r, rfl⟩⟩
  · simp only [hc, if_false]
    constructor
    · rintro ⟨v, hv⟩
      cases hv
    · intro h
      exact absurd (List.isEmpty_iff.mpr h) hc

theorem validateUpdateRecord_ok_eq (pf sf : String) (r vr : DBRecord)
    (h : validateUpdateRecord pf sf r = .ok vr) : vr = r := by
  unfold validateUpdateRecord at h
  by_cases hc : (recordIssues pf sf r).isEmpty = true
  · simp only [hc, if_true] at h
    cases h
    rfl
  · simp only [hc, if_false] at h
    cases h

/-- A timestamp field counts as missing when it is `null`, `undefined` (which
is also what reading an absent field yields) or the empty string — exactly the
falsy strings `record.createdAt || timestamp` replaces. -/
def tsMissing (v : DBValue) : Prop :=
  v = .null ∨ v = .undef ∨ v = .str ""

theorem jsOr_of_missing (v w : DBValue) (h : tsMissing v) : jsOr v w = w := by
  rcases h with h | h | h <;> subst h <;> rfl

theorem jsOr_of_str (s : String) (hs : s ≠ "") (w : DBValue) :
    jsOr (.str s) w = .str s := by
  simp [jsOr, truthy, hs]

theorem getD_addTimestampsIfMissing_createdAt (now : String) (r : DBRecord) :
    getD (addTimestampsIfMissing now r) "createdAt" =
      jsOr (getD r "createdAt") (.str now) := by
  unfold addTimestampsIfMissing
  rw [getD_setField_ne _ _ _ _ (by decide), getD_setField_self]

theorem getD_addTimestampsIfMissing_updatedAt (now : String) (r : DBRecord) :
    getD (addTimestampsIfMissing now r) "updatedAt" =
      jsOr (getD r "updatedAt") (.str now) := by
  unfold addTimestampsIfMissing
  rw [getD_setField_self]

theorem getD_addTimestampsIfMissing_other (now : String) (r : DBRecord)
    (g : String) (hc : g ≠ "createdAt") (hu : g ≠ "updatedAt") :
    getD (addTimestampsIfMissing now r) g = getD r g := by
  unfold addTimestampsIfMissing
  rw [getD_setField_ne _ _ _ _ hu, getD_setField_ne _ _ _ _ hc]

theorem hasField_deleteField_other (r : DBRecord) (f g : String) (h : g ≠ f) :
    hasField (deleteField r f) g = hasField r g := by
  induction r with
  | nil => simp [deleteField]
  | cons p r ih =>
    obtain ⟨k, w⟩ := p
    by_cases hk : k = f
    · subst hk
      simp [deleteField, hasField, Ne.symm h, ih]
    · simp [deleteField, hk, hasField, ih]

theorem hasField_of_isNonEmptyStr (r : DBRecord) (f : String)
    (h : isNonEmptyStr (getD r f) = true) : hasField r f = true := by
  cases hv : getD r f with
  | str s => exact hasField_of_getD_str r f s hv
  | num n => rw [hv] at h; simp [isNonEmptyStr] at h
  | bool b => rw [hv] at h; simp [isNonEmptyStr] at h
  | null => rw [hv] at h; simp [isNonEmptyStr] at h
  | undef => rw [hv] at h; simp [isNonEmptyStr] at h
  | arr es => rw [hv] at h; simp [isNonEmptyStr] at h
  | obj fs => rw [hv] at h; simp [isNonEmptyStr] at h

theorem chunksOf_foldl {β : Type} (k : Nat) (hk : k ≠ 0) (l : List DBRecord)
    (w : β → DBRecord → β) (t0 : β) :
    (chunksOf k l).foldl (fun t c => c.foldl w t) t0 = l.foldl w t0 := by
  conv_rhs => rw [← chunksOf_flatten k hk l]
  rw [List.foldl_flatten]

/-! ## Claim theorems -/

/-- C3: for every record in which both `createdAt` and `updatedAt` are missing
(absent, `null`, `undefined` or empty string), the record produced by
`addTimestampsIfMissing` — and hence the record returned by `createOneRecord`
— carries the single generated instant in both fields, so `createdAt` is
exactly equal to `updatedAt`. -/
theorem claim3_created_eq_updated (pf sf now : String) (r out : DBRecord)
    (hc : tsMissing (getD r "createdAt"))
    (hu : tsMissing (getD r "updatedAt"))
    (hout : createOneRecord pf sf now r = .ok out) :
    getD (addTimestampsIfMissing now r) "createdAt" =
      getD (addTimestampsIfMissing now r) "updatedAt" ∧
    getD out "createdAt" = .str now ∧
    getD out "updatedAt" = .str now ∧
    getD out "createdAt" = getD out "updatedAt" := by
  have hout2 : out = addTimestampsIfMissing now r := by
    unfold createOneRecord at hout
    cases hvr : validateCreateRecord pf sf r with
    | error e =>
      rw [hvr] at hout
      cases hout
    | ok vr =>
      rw [hvr] at hout
      cases hout
      rw [validateCreateRecord_ok_eq pf sf r vr hvr]
  have h1 : getD (addTimestampsIfMissing now r) "createdAt" = .str now := by
    rw [getD_addTimestampsIfMissing_createdAt, jsOr_of_missing _ _ hc]
  have h2 : getD (addTimestampsIfMissing now r) "updatedAt" = .str now := by
    rw [getD_addTimestampsIfMissing_updatedAt, jsOr_of_missing _ _ hu]
  subst hout2
  exact ⟨h1.trans h2.symm, h1, h2, h1.trans h2.symm⟩

/-- C3 witness: a concrete record with no timestamp fields. -/
theorem claim3_witness :
    getD (addTimestampsIfMissing "2024-01-01T00:00:00.000Z"
        [("id", DBValue.str "p1"), ("sk", DBValue.str "products")]) "createdAt" =
      getD (addTimestampsIfMissing "2024-01-01T00:00:00.000Z"
        [("id", DBValue.str "p1"), ("sk", DBValue.str "products")]) "updatedAt" ∧
    getD [("id", DBValue.str "p1"), ("sk", DBValue.str "products"),
        ("createdAt", DBValue.str "2024-01-01T00:00:00.000Z"),
        ("updatedAt", DBValue.str "2024-01-01T00:00:00.000Z")] "createdAt" =
      DBValue.str "2024-01-01T00:00:00.000Z" ∧
    getD [("id", DBValue.str "p1"), ("sk", DBValue.str "products"),
        ("createdAt", DBValue.str "2024-01-01T00:00:00.000Z"),
        ("updatedAt", DBValue.str "2024-01-01T00:00:00.000Z")] "updatedAt" =
      DBValue.str "2024-01-01T00:00:00.000Z" ∧
    getD [("id", DBValue.str "p1"), ("sk", DBValue.str "products"),
        ("createdAt", DBValue.str "2024-01-01T00:00:00.000Z"),
        ("updatedAt", DBValue.str "2024-01-01T00:00:00.000Z")] "createdAt" =
      getD [("id", DBValue.str "p1"), ("sk", DBValue.str "products"),
        ("createdAt", DBValue.str "2024-01-01T00:00:00.000Z"),
        ("updatedAt", DBValue.str "2024-01-01T00:00:00.000Z")] "updatedAt" :=
  claim3_created_eq_updated "id" "sk" "2024-01-01T00:00:00.000Z"
    [("id", DBValue.str "p1"), ("sk", DBValue.str "products")] _
    (Or.inr (Or.inl rfl)) (Or.inr (Or.inl rfl)) rfl

/-- C4: `addTimestampsIfMissing` decides `createdAt` and `updatedAt`
independently: a field that is absent, `null`, `undefined` or the empty
string is replaced with the current time, any other (string) caller value is
preserved verbatim, and no other field of the record is touched. -/
theorem claim4_fields_independent (now : String) (r : DBRecord) :
    (tsMissing (getD r "createdAt") →
      getD (addTimestampsIfMissing now r) "createdAt" = .str now) ∧
    (∀ s, s ≠ "" → getD r "createdAt" = .str s →
      getD (addTimestampsIfMissing now r) "createdAt" = .str s) ∧
    (tsMissing (getD r "updatedAt") →
      getD (addTimestampsIfMissing now r) "updatedAt" = .str now) ∧
    (∀ s, s ≠ "" → getD r "updatedAt" = .str s →
      getD (addTimestampsIfMissing now r) "updatedAt" = .str s) ∧
    (∀ g, g ≠ "createdAt" → g ≠ "updatedAt" →
      getD (addTimestampsIfMissing now r) g = getD r g) := by
  refine ⟨?_, ?_, ?_, ?_, ?_⟩
  · intro h
    rw [getD_addTimestampsIfMissing_createdAt, jsOr_of_missing _ _ h]
  · intro s hs h
    rw [getD_addTimestampsIfMissing_createdAt, h, jsOr_of_str s hs]
  · intro h
    rw [getD_addTimestampsIfMissing_updatedAt, jsOr_of_missing _ _ h]
  · intro s hs h
    rw [getD_addTimestampsIfMissing_updatedAt, h, jsOr_of_str s hs]
  · intro g hc hu
    exact getD_addTimestampsIfMissing_other now r g hc hu

/-- C4 witness: a record supplying only `createdAt` keeps it and has
`updatedAt` generated, while its other fields are untouched. -/
theorem claim4_witness :
    getD (addTimestampsIfMissing "2024-02-02T00:00:00.000Z"
        [("id", DBValue.str "a"), ("createdAt", DBValue.str "2020-01-01")])
      "createdAt" = DBValue.str "2020-01-01" ∧
    getD (addTimestampsIfMissing "2024-02-02T00:00:00.000Z"
        [("id", DBValue.str "a"), ("createdAt", DBValue.str "2020-01-01")])
      "updatedAt" = DBValue.str "2024-02-02T00:00:00.000Z" ∧
    getD (addTimestampsIfMissing "2024-02-02T00:00:00.000Z"
        [("id", DBValue.str "a"), ("createdAt", DBValue.str "2020-01-01")])
      "id" = getD [("id", DBValue.str "a"), ("createdAt", DBValue.str "2020-01-01")] "id" :=
  ⟨(claim4_fields_independent "2024-02-02T00:00:00.000Z"
      [("id", DBValue.str "a"), ("createdAt", DBValue.str "2020-01-01")]).2.1
      "2020-01-01" (by decide) rfl,
   (claim4_fields_independent "2024-02-02T00:00:00.000Z"
      [("id", DBValue.str "a"), ("createdAt", DBValue.str "2020-01-01")]).2.2.1
      (Or.inr (Or.inl rfl)),
   (claim4_fields_independent "2024-02-02T00:00:00.000Z"
      [("id", DBValue.str "a"), ("createdAt", DBValue.str "2020-01-01")]).2.2.2.2
      "id" (by decide) (by decide)⟩

/-- C7: `updateTimestamp` overwrites `updatedAt` with the current time
regardless of any existing value and leaves every other field (in particular
`createdAt`) exactly as in the input; `replaceOneRecord` applies it to the
validated record, so a successful replace preserves the caller's
`createdAt`. -/
theorem claim7_refresh_updatedAt (pf sf now : String) (r vr : DBRecord)
    (hv : validateUpdateRecord pf sf r = .ok vr) :
    getD (updateTimestamp now r) "updatedAt" = .str now ∧
    (∀ g, g ≠ "updatedAt" → getD (updateTimestamp now r) g = getD r g) ∧
    replaceOneRecord pf sf now r = .ok (updateTimestamp now r) ∧
    (∀ out, replaceOneRecord pf sf now r = .ok out →
      getD out "createdAt" = getD r "createdAt") := by
  have hvr : vr = r := validateUpdateRecord_ok_eq pf sf r vr hv
  rw [hvr] at hv
  have hrep : replaceOneRecord pf sf now r = .ok (updateTimestamp now r) := by
    unfold replaceOneRecord
    rw [hv]
  refine ⟨getD_setField_self r "updatedAt" (.str now), ?_, hrep, ?_⟩
  · intro g hg
    exact getD_setField_ne r "updatedAt" g (.str now) hg
  · intro out hout
    rw [hrep] at hout
    cases hout
    exact getD_setField_ne r "updatedAt" "createdAt" (.str now) (by decide)

/-- C7 witness: replacing a record with an old `updatedAt` refreshes it and
keeps `createdAt`. -/
theorem claim7_witness :
    getD (updateTimestamp "2024-03-03T00:00:00.000Z"
        [("id", DBValue.str "a"), ("sk", DBValue.str "s"),
         ("createdAt", DBValue.str "2020-01-01"),
         ("updatedAt", DBValue.str "2020-01-01")]) "updatedAt" =
      DBValue.str "2024-03-03T00:00:00.000Z" ∧
    getD (updateTimestamp "2024-03-03T00:00:00.000Z"
        [("id", DBValue.str "a"), ("sk", DBValue.str "s"),
         ("createdAt", DBValue.str "2020-01-01"),
         ("updatedAt", DBValue.str "2020-01-01")]) "createdAt" =
      getD [("id", DBValue.str "a"), ("sk", DBValue.str "s"),
         ("createdAt", DBValue.str "2020-01-01"),
         ("updatedAt", DBValue.str "2020-01-01")] "createdAt" :=
  ⟨(claim7_refresh_updatedAt "id" "sk" "2024-03-03T00:00:00.000Z"
      [("id", DBValue.str "a"), ("sk", DBValue.str "s"),
       ("createdAt", DBValue.str "2020-01-01"),
       ("updatedAt", DBValue.str "2020-01-01")] _ rfl).1,
   (claim7_refresh_updatedAt "id" "sk" "2024-03-03T00:00:00.000Z"
      [("id", DBValue.str "a"), ("sk", DBValue.str "s"),
       ("createdAt", DBValue.str "2020-01-01"),
       ("updatedAt", DBValue.str "2020-01-01")] _ rfl).2.1
      "createdAt" (by decide)⟩

/-- C8: for a valid key whose record does not exist (the backend get returns
no item), `fetchOneRecord` returns the explicit absent value `none` and does
not produce an error. -/
theorem claim8_missing_is_none (pf sf : String)
    (db : DBRecord → Option DBRecord) (ks vks : DBRecord)
    (hv : validateKeys pf sf ks = .ok vks) (hmiss : db vks = none) :
    fetchOneRecord pf sf db ks = .ok none := by
  unfold fetchOneRecord
  rw [hv]
  show Except.ok (db vks) = Except.ok none
  rw [hmiss]

/-- C1 counterexample: a key object whose partition-field and sort-field
values are numbers is rejected by `validateKeys` — the key schema demands
`z.string().min(1)` for both key fields, so numeric key values are not
accepted. -/
theorem claim1_counterexample :
    validateKeys "id" "sk" [("id", DBValue.num 7), ("sk", DBValue.num 3)] =
      .error "Validation failed for keys: Missing or invalid fields: id, sk" ∧
    validateCreateRecord "id" "sk"
      [("id", DBValue.num 7), ("sk", DBValue.str "a")] =
      .error "Validation failed for create record: Missing or invalid fields: id" :=
  ⟨rfl, rfl⟩

/-- C1 (amended): `validateKeys` / `validateCreateRecord` accept a key or
record exactly when both configured key fields are present as non-empty
strings (for keys, any extra field must additionally be a string or a
number); numeric values in the partition or sort field are rejected, and
accepted key values are passed through by value, unchanged. -/
theorem claim1_key_fields_strings (pf sf : String) (ks r : DBRecord) :
    ((∃ v, validateKeys pf sf ks = .ok v) ↔
      (isNonEmptyStr (getD ks pf) = true ∧ isNonEmptyStr (getD ks sf) = true ∧
        ∀ p ∈ ks, p.1 ≠ pf → p.1 ≠ sf → isStrOrNum p.2 = true)) ∧
    (keyIssues pf sf ks = [] →
      validateKeys pf sf ks = .ok [(pf, getD ks pf), (sf, getD ks sf)]) ∧
    ((∃ v, validateCreateRecord pf sf r = .ok v) ↔
      (isNonEmptyStr (getD r pf) = true ∧ isNonEmptyStr (getD r sf) = true)) ∧
    (recordIssues pf sf r = [] → validateCreateRecord pf sf r = .ok r) ∧
    (∀ n : Int, getD ks pf = DBValue.num n → ∀ v, validateKeys pf sf ks ≠ .ok v) := by
  refine ⟨?_, validateKeys_ok_of_issues pf sf ks, ?_, ?_, ?_⟩
  · rw [validateKeys_ok_iff_issues, keyIssues_eq_nil_iff]
  · rw [validateCreateRecord_ok_iff, recordIssues_eq_nil_iff]
  · intro h
    unfold validateCreateRecord
    simp [h]
  · intro n hn v hv
    have h1 := (validateKeys_ok_iff_issues pf sf ks).mp ⟨v, hv⟩
    have h2 := ((keyIssues_eq_nil_iff pf sf ks).mp h1).1
    rw [hn] at h2
    simp [isNonEmptyStr] at h2

/-- C1 witness: a key with string key fields and a numeric extra field is
accepted and restricted to the two key fields, values passed through. -/
theorem claim1_witness :
    (∃ v, validateKeys "id" "sk"
      [("id", DBValue.str "a"), ("sk", DBValue.str "b"), ("n", DBValue.num 5)] =
        .ok v) ∧
    validateKeys "id" "sk"
      [("id", DBValue.str "a"), ("sk", DBValue.str "b"), ("n", DBValue.num 5)] =
      .ok [("id", DBValue.str "a"), ("sk", DBValue.str "b")] ∧
    validateKeys "id" "sk" [("id", DBValue.num 1), ("sk", DBValue.str "b")] ≠
      .ok [("id", DBValue.num 1), ("sk", DBValue.str "b")] :=
  ⟨(claim1_key_fields_strings "id" "sk"
      [("id", DBValue.str "a"), ("sk", DBValue.str "b"), ("n", DBValue.num 5)]
      []).1.mpr (by
        refine ⟨rfl, rfl, ?_⟩
        intro p hp h1 h2
        simp only [List.mem_cons, List.not_mem_nil, or_false] at hp
        rcases hp with rfl | rfl | rfl
        · exact absurd rfl h1
        · exact absurd rfl h2
        · rfl),
   (claim1_key_fields_strings "id" "sk"
      [("id", DBValue.str "a"), ("sk", DBValue.str "b"), ("n", DBValue.num 5)]
      []).2.1 rfl,
   (claim1_key_fields_strings "id" "sk"
      [("id", DBValue.num 1), ("sk", DBValue.str "b")] []).2.2.2.2 1 rfl
      [("id", DBValue.num 1), ("sk", DBValue.str "b")]⟩

/-- C2: whatever `updates` contains for the partition or sort field,
`validatePatchUpdates` strips those two fields before use, the generated
update expression's placeholder names never map to the partition or sort
attribute, and applying the generated patch leaves the stored record's
partition and sort fields unchanged. -/
theorem claim2_keys_immutable_in_patch (pf sf now : String)
    (ks updates vks : DBRecord)
    (hv : validateKeys pf sf ks = .ok vks) :
    validatePatchUpdates pf sf ks updates =
      .ok (vks, deleteField (deleteField updates pf) sf) ∧
    hasField (deleteField (deleteField updates pf) sf) pf = false ∧
    hasField (deleteField (deleteField updates pf) sf) sf = false ∧
    (∃ parts, patchOneRecord pf sf now ks updates = .ok (vks, parts)) ∧
    (∀ parts, patchOneRecord pf sf now ks updates = .ok (vks, parts) →
      (∀ q ∈ exprAttributeNames parts, q.2 ≠ pf ∧ q.2 ≠ sf) ∧
      (∀ item, getD (applyPatchParts item parts) pf = getD item pf ∧
               getD (applyPatchParts item parts) sf = getD item sf)) := by
  have hvp : validatePatchUpdates pf sf ks updates =
      .ok (vks, deleteField (deleteField updates pf) sf) := by
    unfold validatePatchUpdates
    rw [hv]
  have hdelpf : hasField (deleteField (deleteField updates pf) sf) pf = false := by
    by_cases hps : pf = sf
    · rw [hps]
      exact hasField_deleteField_self _ sf
    · rw [hasField_deleteField_other _ sf pf hps]
      exact hasField_deleteField_self _ pf
  have hdelsf : hasField (deleteField (deleteField updates pf) sf) sf = false :=
    hasField_deleteField_self _ sf
  have hiss := (validateKeys_ok_iff_issues pf sf ks).mp ⟨vks, hv⟩
  obtain ⟨hne1, hne2, _⟩ := (keyIssues_eq_nil_iff pf sf ks).mp hiss
  have hkpf : hasField ks pf = true := hasField_of_isNonEmptyStr ks pf hne1
  have hksf : hasField ks sf = true := hasField_of_isNonEmptyStr ks sf hne2
  have hpatch : patchOneRecord pf sf now ks updates =
      .ok (vks, buildExprParts ks 0
        (updateTimestamp now (deleteField (deleteField updates pf) sf))) := by
    unfold patchOneRecord
    rw [hvp]
  refine ⟨hvp, hdelpf, hdelsf, ⟨_, hpatch⟩, ?_⟩
  intro parts hp
  rw [hpatch] at hp
  cases hp
  have hnotraw : ∀ p ∈ buildExprParts ks 0
      (updateTimestamp now (deleteField (deleteField updates pf) sf)),
      hasField ks p.2.1 = false :=
    fun p hp2 => buildExprParts_not_raw ks _ 0 p hp2
  constructor
  · intro q hq
    rw [exprAttributeNames, List.mem_map] at hq
    obtain ⟨p, hpmem, rfl⟩ := hq
    have hraw := hnotraw p hpmem
    constructor
    · intro heq
      have heq2 : p.2.1 = pf := heq
      rw [heq2, hkpf] at hraw
      cases hraw
    · intro heq
      have heq2 : p.2.1 = sf := heq
      rw [heq2, hksf] at hraw
      cases hraw
  · intro item
    constructor
    · refine getD_applyPatchParts pf _ item (fun p hp2 heq => ?_)
      have hraw := hnotraw p hp2
      rw [heq, hkpf] at hraw
      cases hraw
    · refine getD_applyPatchParts sf _ item (fun p hp2 heq => ?_)
      have hraw := hnotraw p hp2
      rw [heq, hksf] at hraw
      cases hraw

/-- C2 witness: a patch whose updates try to overwrite both key fields. -/
theorem claim2_witness :
    validatePatchUpdates "id" "sk"
      [("id", DBValue.str "a"), ("sk", DBValue.str "b")]
      [("id", DBValue.str "evil"), ("sk", DBValue.str "evil"), ("name", DBValue.str "W")] =
      .ok ([("id", DBValue.str "a"), ("sk", DBValue.str "b")],
        [("name", DBValue.str "W")]) ∧
    (∀ parts, patchOneRecord "id" "sk" "2024-01-01T00:00:00.000Z"
        [("id", DBValue.str "a"), ("sk", DBValue.str "b")]
        [("id", DBValue.str "evil"), ("sk", DBValue.str "evil"), ("name", DBValue.str "W")] =
        .ok ([("id", DBValue.str "a"), ("sk", DBValue.str "b")], parts) →
      (∀ q ∈ exprAttributeNames parts, q.2 ≠ "id" ∧ q.2 ≠ "sk") ∧
      (∀ item, getD (applyPatchParts item parts) "id" = getD item "id" ∧
               getD (applyPatchParts item parts) "sk" = getD item "sk")) :=
  ⟨(claim2_keys_immutable_in_patch "id" "sk" "2024-01-01T00:00:00.000Z"
      [("id", DBValue.str "a"), ("sk", DBValue.str "b")]
      [("id", DBValue.str "evil"), ("sk", DBValue.str "evil"), ("name", DBValue.str "W")]
      [("id", DBValue.str "a"), ("sk", DBValue.str "b")] rfl).1,
   (claim2_keys_immutable_in_patch "id" "sk" "2024-01-01T00:00:00.000Z"
      [("id", DBValue.str "a"), ("sk", DBValue.str "b")]
      [("id", DBValue.str "evil"), ("sk", DBValue.str "evil"), ("name", DBValue.str "W")]
      [("id", DBValue.str "a"), ("sk", DBValue.str "b")] rfl).2.2.2.2⟩

/-- C10: any update attribute whose name equals any field name present in the
caller-supplied raw `keys` object — including extraneous fields that are not
the configured partition or sort field — is excluded from the generated
update expression and never written to the stored record, because the
expression builder filters against the raw `keys` argument. -/
theorem claim10_filter_against_raw_keys (pf sf now : String)
    (ks updates : DBRecord) (f : String) (hf : hasField ks f = true)
    (vks : DBRecord) (parts : List (Nat × String × DBValue))
    (hp : patchOneRecord pf sf now ks updates = .ok (vks, parts)) :
    (∀ q ∈ exprAttributeNames parts, q.2 ≠ f) ∧
    (∀ item, getD (applyPatchParts item parts) f = getD item f) := by
  have hparts : ∀ p ∈ parts, hasField ks p.2.1 = false := by
    unfold patchOneRecord at hp
    cases hvp : validatePatchUpdates pf sf ks updates with
    | error e =>
      rw [hvp] at hp
      cases hp
    | ok pr =>
      rw [hvp] at hp
      cases hp
      exact fun p hp2 => buildExprParts_not_raw ks _ 0 p hp2
  refine ⟨?_, ?_⟩
  · intro q hq
    rw [exprAttributeNames, List.mem_map] at hq
    obtain ⟨p, hpmem, rfl⟩ := hq
    intro heq
    have heq2 : p.2.1 = f := heq
    have hraw := hparts p hpmem
    rw [heq2, hf] at hraw
    cases hraw
  · intro item
    refine getD_applyPatchParts f parts item (fun p hp2 hpe => ?_)
    have hraw := hparts p hp2
    rw [hpe, hf] at hraw
    cases hraw

/-- C10 witness: an extraneous `price` field in the raw keys silently drops
the `price` update from the expression. -/
theorem claim10_witness :
    (∀ q ∈ exprAttributeNames (buildExprParts
        [("id", DBValue.str "a"), ("sk", DBValue.str "b"), ("price", DBValue.num 5)] 0
        (updateTimestamp "2024-01-01T00:00:00.000Z"
          (deleteField (deleteField
            [("price", DBValue.num 12), ("name", DBValue.str "W")] "id") "sk"))),
      q.2 ≠ "price") ∧
    (∀ item, getD (applyPatchParts item (buildExprParts
        [("id", DBValue.str "a"), ("sk", DBValue.str "b"), ("price", DBValue.num 5)] 0
        (updateTimestamp "2024-01-01T00:00:00.000Z"
          (deleteField (deleteField
            [("price", DBValue.num 12), ("name", DBValue.str "W")] "id") "sk"))))
      "price" = getD item "price") := by
  have h := claim10_filter_against_raw_keys "id" "sk" "2024-01-01T00:00:00.000Z"
    [("id", DBValue.str "a"), ("sk", DBValue.str "b"), ("price", DBValue.num 5)]
    [("price", DBValue.num 12), ("name", DBValue.str "W")] "price" rfl
    [("id", DBValue.str "a"), ("sk", DBValue.str "b")] _ rfl
  exact h

/-- C5: the batch drivers split their validated input into exactly
`ceil(N / limit)` chunks (limit 25 for `createManyRecords` and
`deleteManyRecords`, 100 for `fetchManyRecords`), each chunk at most the
limit, chunks in input order covering every item exactly once; the
in-order concatenation of per-chunk backend effects/results equals
processing the whole list at once, and an empty input issues zero backend
calls and yields an empty result. -/
theorem claim5_chunked_batches (pf sf now : String)
    (db : DBRecord → Option DBRecord)
    (records keysList vrs vkl : List DBRecord)
    (hr : validateBatchRecords pf sf records = .ok vrs)
    (hk : validateBatchKeys pf sf keysList = .ok vkl) :
    createManyRecords pf sf now records =
      .ok (chunksOf 25 (vrs.map (addTimestampsIfMissing now)),
        vrs.map (addTimestampsIfMissing now)) ∧
    (chunksOf 25 (vrs.map (addTimestampsIfMissing now))).length =
      (records.length + 25 - 1) / 25 ∧
    (∀ c ∈ chunksOf 25 (vrs.map (addTimestampsIfMissing now)), c.length ≤ 25) ∧
    (chunksOf 25 (vrs.map (addTimestampsIfMissing now))).flatten =
      vrs.map (addTimestampsIfMissing now) ∧
    (∀ t0 : DBTable,
      (chunksOf 25 (vrs.map (addTimestampsIfMissing now))).foldl
          (fun t c => c.foldl (putItem pf sf) t) t0 =
        (vrs.map (addTimestampsIfMissing now)).foldl (putItem pf sf) t0) ∧
    deleteManyRecords pf sf keysList = .ok (chunksOf 25 vkl) ∧
    (chunksOf 25 vkl).length = (keysList.length + 25 - 1) / 25 ∧
    (∀ c ∈ chunksOf 25 vkl, c.length ≤ 25) ∧
    (chunksOf 25 vkl).flatten = vkl ∧
    (∀ t0 : DBTable,
      (chunksOf 25 vkl).foldl (fun t c => c.foldl delItem t) t0 =
        vkl.foldl delItem t0) ∧
    fetchManyRecords pf sf db keysList =
      .ok (chunksOf 100 vkl,
        ((chunksOf 100 vkl).map (fun c => c.filterMap db)).flatten) ∧
    (chunksOf 100 vkl).length = (keysList.length + 100 - 1) / 100 ∧
    (∀ c ∈ chunksOf 100 vkl, c.length ≤ 100) ∧
    ((chunksOf 100 vkl).map (fun c => c.filterMap db)).flatten =
      vkl.filterMap db ∧
    createManyRecords pf sf now [] = .ok ([], []) ∧
    deleteManyRecords pf sf [] = .ok [] ∧
    fetchManyRecords pf sf db [] = .ok ([], []) := by
  have hlrec : vrs.length = records.length :=
    validateBatchRecordsFrom_ok_length pf sf records 0 vrs hr
  have hlkey : vkl.length = keysList.length :=
    validateBatchKeysFrom_ok_length pf sf keysList 0 vkl hk
  have hlmap : (vrs.map (addTimestampsIfMissing now)).length = records.length := by
    rw [List.length_map, hlrec]
  refine ⟨?_, ?_, chunksOf_sizes 25 (by decide) _, chunksOf_flatten 25 (by decide) _,
    fun t0 => chunksOf_foldl 25 (by decide) _ _ t0,
    ?_, ?_, chunksOf_sizes 25 (by decide) _, chunksOf_flatten 25 (by decide) _,
    fun t0 => chunksOf_foldl 25 (by decide) _ _ t0,
    ?_, ?_, chunksOf_sizes 100 (by decide) _, ?_, rfl, rfl, rfl⟩
  · unfold createManyRecords
    rw [hr]
  · rw [chunksOf_length 25 (by decide), hlmap]
  · unfold deleteManyRecords
    rw [hk]
  · rw [chunksOf_length 25 (by decide), hlkey]
  · unfold fetchManyRecords
    by_cases hke : keysList.isEmpty = true
    · have hnil : keysList = [] := List.isEmpty_iff.mp hke
      subst hnil
      have : vkl = [] := List.length_eq_zero.mp (by rw [hlkey]; rfl)
      subst this
      rfl
    · have hne : keysList.isEmpty = false := Bool.eq_false_iff.mpr hke
      rw [hne, hk]
      rfl
  · rw [chunksOf_length 100 (by decide), hlkey]
  · conv_rhs => rw [← chunksOf_flatten 100 (by decide) vkl]
    rw [List.filterMap_flatten]

/-- C5 witness: a singleton batch produces one chunk per driver. -/
theorem claim5_witness :
    createManyRecords "id" "sk" "2024-01-01T00:00:00.000Z"
      [[("id", DBValue.str "a"), ("sk", DBValue.str "b")]] =
      .ok ([[[("id", DBValue.str "a"), ("sk", DBValue.str "b"),
        ("createdAt", DBValue.str "2024-01-01T00:00:00.000Z"),
        ("updatedAt", DBValue.str "2024-01-01T00:00:00.000Z")]]],
        [[("id", DBValue.str "a"), ("sk", DBValue.str "b"),
        ("createdAt", DBValue.str "2024-01-01T00:00:00.000Z"),
        ("updatedAt", DBValue.str "2024-01-01T00:00:00.000Z")]]) ∧
    deleteManyRecords "id" "sk"
      [[("id", DBValue.str "a"), ("sk", DBValue.str "b")]] =
      .ok [[[("id", DBValue.str "a"), ("sk", DBValue.str "b")]]] ∧
    fetchManyRecords "id" "sk" (fun _ => none)
      [[("id", DBValue.str "a"), ("sk", DBValue.str "b")]] =
      .ok ([[[("id", DBValue.str "a"), ("sk", DBValue.str "b")]]], []) ∧
    createManyRecords "id" "sk" "2024-01-01T00:00:00.000Z" [] = .ok ([], []) := by
  have h := claim5_chunked_batches "id" "sk" "2024-01-01T00:00:00.000Z"
    (fun _ => none)
    [[("id", DBValue.str "a"), ("sk", DBValue.str "b")]]
    [[("id", DBValue.str "a"), ("sk", DBValue.str "b")]]
    [[("id", DBValue.str "a"), ("sk", DBValue.str "b")]]
    [[("id", DBValue.str "a"), ("sk", DBValue.str "b")]] rfl rfl
  refine ⟨?_, ?_, ?_, h.2.2.2.2.2.2.2.2.2.2.2.2.2.2.1⟩
  · rw [h.1]
    rfl
  · rw [h.2.2.2.2.2.1]
    rfl
  · rw [h.2.2.2.2.2.2.2.2.2.2.1]
    rfl

/-- C6: batch validation fails on the first invalid element with an error
message embedding that element's zero-based index and the underlying failure
reason, and the failing batch operation returns that error without producing
any backend calls. -/
theorem claim6_batch_error_names_index (pf sf now : String)
    (db : DBRecord → Option DBRecord)
    (l : List DBRecord) (i : Nat) (hi : i < l.length) (m : String)
    (hfst : ∀ j (hj : j < i), ∃ v, validateKeys pf sf (l.get ⟨j, hj.trans hi⟩) = .ok v)
    (he : validateKeys pf sf (l.get ⟨i, hi⟩) = .error m)
    (lr : List DBRecord) (ir : Nat) (hir : ir < lr.length) (mr : String)
    (hfstr : ∀ j (hj : j < ir),
      ∃ v, validateCreateRecord pf sf (lr.get ⟨j, hj.trans hir⟩) = .ok v)
    (her : validateCreateRecord pf sf (lr.get ⟨ir, hir⟩) = .error mr) :
    validateBatchKeys pf sf l = .error (batchKeysMsg i m) ∧
    deleteManyRecords pf sf l = .error (batchKeysMsg i m) ∧
    fetchManyRecords pf sf db l = .error (batchKeysMsg i m) ∧
    validateBatchRecords pf sf lr = .error (batchRecordsMsg ir mr) ∧
    createManyRecords pf sf now lr = .error (batchRecordsMsg ir mr) := by
  have hbk : validateBatchKeys pf sf l = .error (batchKeysMsg i m) := by
    have := validateBatchKeysFrom_error pf sf l 0 i hi m hfst he
    rw [Nat.zero_add] at this
    exact this
  have hbr : validateBatchRecords pf sf lr = .error (batchRecordsMsg ir mr) := by
    have := validateBatchRecordsFrom_error pf sf lr 0 ir hir mr hfstr her
    rw [Nat.zero_add] at this
    exact this
  have hlne : l.isEmpty = false := by
    cases l with
    | nil => simp at hi
    | cons a rest => rfl
  refine ⟨hbk, ?_, ?_, hbr, ?_⟩
  · unfold deleteManyRecords
    rw [hbk]
  · unfold fetchManyRecords
    rw [hlne, hbk]
    rfl
  · unfold createManyRecords
    rw [hbr]

/-- C6 witness: a numeric key at index 0 and a record missing its sort field
at index 0 produce indexed error messages before any backend call. -/
theorem claim6_witness :
    validateBatchKeys "id" "sk" [[("id", DBValue.num 1)]] =
      .error ("Validation failed for keys at index 0: " ++
        "Validation failed for keys: Missing or invalid fields: id, sk") ∧
    deleteManyRecords "id" "sk" [[("id", DBValue.num 1)]] =
      .error ("Validation failed for keys at index 0: " ++
        "Validation failed for keys: Missing or invalid fields: id, sk") ∧
    createManyRecords "id" "sk" "2024-01-01T00:00:00.000Z"
      [[("id", DBValue.str "a")]] =
      .error ("Validation failed for record at index 0: " ++
        "Validation failed for create record: Missing or invalid fields: sk") := by
  have h := claim6_batch_error_names_index "id" "sk" "2024-01-01T00:00:00.000Z"
    (fun _ => none) [[("id", DBValue.num 1)]] 0 (by decide)
    "Validation failed for keys: Missing or invalid fields: id, sk"
    (fun j hj => absurd hj (Nat.not_lt_zero j)) rfl
    [[("id", DBValue.str "a")]] 0 (by decide)
    "Validation failed for create record: Missing or invalid fields: sk"
    (fun j hj => absurd hj (Nat.not_lt_zero j)) rfl
  exact ⟨h.1, h.2.1, h.2.2.2.2⟩

/-- C8 witness: fetching a valid key from an empty backend yields `none`. -/
theorem claim8_witness :
    fetchOneRecord "id" "sk" (fun _ => none)
      [("id", DBValue.str "p1"), ("sk", DBValue.str "products")] = .ok none :=
  claim8_missing_is_none "id" "sk" (fun _ => none)
    [("id", DBValue.str "p1"), ("sk", DBValue.str "products")]
    [("id", DBValue.str "p1"), ("sk", DBValue.str "products")] rfl rfl

end DynamoAdapter
